/-
Verification of the Raytracing-Engine core against its design document.

The development shallowly embeds the components the properties talk about:
  * the priority task queue (engine/code/sources/Task_Queue.cpp),
  * the thread pool constructor (engine/code/sources/Thread_Pool.cpp),
  * the pool manager's locking discipline (engine/code/sources/Thread_Pool_Manager.cpp),
  * the path tracer's snapshot functions, camera-change stage, batched tile
    submission loop and recursive ray evaluation
    (ray tracer/code/sources/Path_Tracer.cpp, headers/raytracer/Path_Tracer.hpp),
  * the continuous-update synchronization protocol (tiles_completed flag,
    active_tile_count counter, publisher loop) as a labelled transition system.

Machine floats are modelled as rationals; colors componentwise over ℚ.
-/
import Mathlib

namespace RTEngine

/-! ## Task queue (engine/code/sources/Task_Queue.cpp) -/

/-- `Task_Priority` from engine/Task_Queue.hpp: HIGH, NORMAL, LOW, with the
underlying enum values 0, 1, 2 (a lower value means a higher priority). -/
inductive Task_Priority where
  | HIGH
  | NORMAL
  | LOW
deriving DecidableEq, Repr

/-- The underlying integral value of the `Task_Priority` enum. -/
def prioVal : Task_Priority → Nat
  | .HIGH => 0
  | .NORMAL => 1
  | .LOW => 2

/-- A task as the queue sees it: an identity (standing for the distinct
`shared_ptr<ITask>` object) and its priority. -/
structure QTask where
  id : Nat
  priority : Task_Priority
deriving DecidableEq, Repr

/-- `Task_Priority_Compare::operator()`: `a` orders below `b` in the heap iff
`a->get_priority() > b->get_priority()`; hence `std::priority_queue` surfaces
an element of minimal enum value (maximal priority) at `top()`. -/
def task_priority_compare (a b : QTask) : Bool :=
  prioVal a.priority > prioVal b.priority

/-- Extract from a multiset of tasks (represented as a list) the element
`std::priority_queue::top` surfaces: one whose priority value is minimal,
together with the remaining tasks.  The tie-break is unspecified in the
source; this model keeps the first maximal-priority element found. -/
def selectTop : List QTask → Option (QTask × List QTask)
  | [] => none
  | t :: ts =>
    match selectTop ts with
    | none => some (t, [])
    | some (u, rest) =>
      if prioVal u.priority < prioVal t.priority then
        some (u, t :: rest)
      else
        some (t, ts)

/-- The state of a `Task_Queue`: the pending tasks and the stop flag. -/
structure Task_Queue where
  tasks : List QTask
  stop_flag : Bool
deriving DecidableEq, Repr

/-- A fresh queue: no tasks, `stop_flag` false (the constructor). -/
def Task_Queue.init : Task_Queue := { tasks := [], stop_flag := false }

/-- A concrete queue holding one NORMAL task, used to witness the stop
semantics. -/
def demoQueue : Task_Queue :=
  { tasks := [⟨0, Task_Priority.NORMAL⟩], stop_flag := false }

/-- `Task_Queue::push`: inserts unconditionally. -/
def Task_Queue.push (q : Task_Queue) (t : QTask) : Task_Queue :=
  { q with tasks := t :: q.tasks }

/-- What a `pop`/`try_pop` call yields: a task, the null sentinel, or — for a
blocking `pop` on an empty, unstopped queue — no return at all yet. -/
inductive PopResult where
  | task (t : QTask)
  | sentinel
  | blocked
deriving DecidableEq, Repr

/-- `Task_Queue::pop`: waits until the queue is non-empty or stopped; returns
the null sentinel if stopped and empty, else removes and returns `top()`. -/
def Task_Queue.pop (q : Task_Queue) : PopResult × Task_Queue :=
  match selectTop q.tasks with
  | some (t, rest) => (PopResult.task t, { q with tasks := rest })
  | none =>
    if q.stop_flag then (PopResult.sentinel, q) else (PopResult.blocked, q)

/-- `Task_Queue::try_pop`: returns the sentinel on an empty queue, else removes
and returns `top()`, never blocking. -/
def Task_Queue.try_pop (q : Task_Queue) : PopResult × Task_Queue :=
  match selectTop q.tasks with
  | some (t, rest) => (PopResult.task t, { q with tasks := rest })
  | none => (PopResult.sentinel, q)

/-- `Task_Queue::stop`: sets the stop flag (and wakes all waiters). -/
def Task_Queue.stop (q : Task_Queue) : Task_Queue :=
  { q with stop_flag := true }

/-- Client operations on the queue, used to form arbitrary histories.  A
`push` carries only the priority: the task object itself is fresh each time,
modelled by a monotone id counter. -/
inductive QOp where
  | push (p : Task_Priority)
  | pop
  | tryPop
  | stop
deriving DecidableEq, Repr

/-- A history's observable state: the queue, the next fresh task id, and the
tasks returned to clients so far (in order). -/
structure RunState where
  q : Task_Queue
  nextId : Nat
  returned : List QTask
deriving DecidableEq, Repr

/-- One client operation applied to the observable state. -/
def qstep (s : RunState) : QOp → RunState
  | .push p =>
    { s with q := s.q.push ⟨s.nextId, p⟩, nextId := s.nextId + 1 }
  | .pop =>
    match s.q.pop with
    | (PopResult.task t, q) => { s with q := q, returned := s.returned ++ [t] }
    | (_, q) => { s with q := q }
  | .tryPop =>
    match s.q.try_pop with
    | (PopResult.task t, q) => { s with q := q, returned := s.returned ++ [t] }
    | (_, q) => { s with q := q }
  | .stop => { s with q := s.q.stop }

/-- The observable state after a history of operations on a fresh queue. -/
def runOps (ops : List QOp) : RunState :=
  ops.foldl qstep { q := Task_Queue.init, nextId := 0, returned := [] }

/-- Fuel-bounded repeated extraction of the top task (each extraction removes
one element, so fuel `l.length` always suffices; proved below). -/
def drainStoppedAux : Nat → List QTask → List QTask
  | 0, _ => []
  | fuel + 1, l =>
    match selectTop l with
    | none => []
    | some (t, rest) => t :: drainStoppedAux fuel rest

/-- Popping every remaining task of a stopped queue: the list of tasks
successive `pop` calls return before the sentinel. -/
def drainStopped (l : List QTask) : List QTask :=
  drainStoppedAux l.length l

/-! ## Thread pool constructor (engine/code/sources/Thread_Pool.cpp) -/

/-- The number of worker threads `Thread_Pool::Thread_Pool(thread_count)`
spawns, as a function of the constructor argument and of the value
`std::thread::hardware_concurrency()` reports: a zero argument falls back to
the hardware concurrency, and only if that is itself zero to 2. -/
def effective_thread_count (thread_count hw : Nat) : Nat :=
  if thread_count = 0 then
    if hw = 0 then 2 else hw
  else
    thread_count

/-! ## Pool manager locking discipline (engine/code/sources/Thread_Pool_Manager.cpp)

Each manager method is embedded as the sequence of atomic actions it performs
on shared state: acquiring/releasing a mutex, reading/writing the `pools`
registry map, and reading/writing the singleton `instance` pointer. -/

/-- An atomic action of a `Thread_Pool_Manager` method on shared state. -/
inductive MgrAction where
  | lock_acquire
  | lock_release
  | registry_read
  | registry_write
  | instance_read
  | instance_write
deriving DecidableEq, Repr

/-- `get_pool`, miss path: `pools.find(type)` (read), `pools[type] = ...`
(write), `return *pools[type]` (read).  No lock is taken. -/
def get_pool_trace_miss : List MgrAction :=
  [MgrAction.registry_read, MgrAction.registry_write, MgrAction.registry_read]

/-- `get_pool`, hit path: `pools.find(type)` (read) then `return *it->second`.
No lock is taken. -/
def get_pool_trace_hit : List MgrAction :=
  [MgrAction.registry_read]

/-- `initialize`: four `pools[...] = std::make_unique<Thread_Pool>(...)`
assignments.  No lock is taken. -/
def init_pools_trace : List MgrAction :=
  [MgrAction.registry_write, MgrAction.registry_write,
   MgrAction.registry_write, MgrAction.registry_write]

/-- `get_instance`, first-call path: unguarded read of `instance`, then
`lock_guard` on `instance_mutex`, second read, construction and write, release,
and the final read for `return *instance`. -/
def get_instance_trace : List MgrAction :=
  [MgrAction.instance_read, MgrAction.lock_acquire, MgrAction.instance_read,
   MgrAction.instance_write, MgrAction.lock_release, MgrAction.instance_read]

/-- Does every occurrence of the given actions happen while at least one lock
is held?  `depth` counts currently held locks. -/
def guardedAux (watch : MgrAction → Bool) (depth : Nat) : List MgrAction → Bool
  | [] => true
  | a :: rest =>
    match a with
    | .lock_acquire => guardedAux watch (depth + 1) rest
    | .lock_release => guardedAux watch (depth - 1) rest
    | _ =>
      (!watch a || decide (0 < depth)) && guardedAux watch depth rest

/-- Every registry access of the trace happens under a held lock. -/
def registryGuarded (tr : List MgrAction) : Bool :=
  guardedAux (fun a => a = MgrAction.registry_read ∨ a = MgrAction.registry_write) 0 tr

/-- The write to the singleton `instance` pointer happens under a held lock. -/
def instanceWriteGuarded (tr : List MgrAction) : Bool :=
  guardedAux (fun a => a = MgrAction.instance_write) 0 tr

/-! ## Colors and buffers (raytracer/Color.hpp and Buffer.hpp collaborators)

`Color` is an RGB triple; machine floats are modelled as rationals.  The
tracer's `Buffer<T>` is a flat array, modelled as a `List`. -/

/-- An RGB color over ℚ. -/
structure Color where
  r : ℚ
  g : ℚ
  b : ℚ
deriving DecidableEq, Repr

/-- Black, `Color(0, 0, 0)`. -/
def Color.black : Color := ⟨0, 0, 0⟩

/-- Componentwise color addition (accumulation into the framebuffer). -/
def Color.add (x y : Color) : Color := ⟨x.r + y.r, x.g + y.g, x.b + y.b⟩

instance : Add Color := ⟨Color.add⟩

/-- Componentwise color modulation (attenuation times radiance). -/
def Color.mul (x y : Color) : Color := ⟨x.r * y.r, x.g * y.g, x.b * y.b⟩

instance : Mul Color := ⟨Color.mul⟩

/-- Dividing a color by a scalar sample count (snapshot normalization). -/
def Color.divScalar (x : Color) (q : ℚ) : Color := ⟨x.r / q, x.g / q, x.b / q⟩

instance : HDiv Color ℚ Color := ⟨Color.divScalar⟩

/-! ## Snapshot computation (Path_Tracer.hpp `get_snapshot` and
Path_Tracer.cpp `continuous_snapshot_update_loop_synchronized`) -/

/-- The body of `get_snapshot`'s loop, walking the snapshot buffer while `i`
tracks the absolute pixel index: for `i < framebuffer.size()`, a pixel with a
positive sample count becomes `framebuffer[i] / ray_counters[i]`, a pixel
without samples becomes black. -/
def getSnapshotFrom (fb : List Color) (rc : List ℚ) : Nat → List Color → List Color
  | _, [] => []
  | i, old :: rest =>
    (if i < fb.length then
      (if 0 < rc.getD i 0 then fb.getD i Color.black / rc.getD i 0 else Color.black)
     else old) :: getSnapshotFrom fb rc (i + 1) rest

/-- `Path_Tracer::get_snapshot`: on-demand normalization of the accumulator
into the snapshot buffer. -/
def get_snapshot (fb : List Color) (rc : List ℚ) (snap : List Color) : List Color :=
  getSnapshotFrom fb rc 0 snap

/-- The body of the publisher's recomputation loop: like `get_snapshot`'s,
except that a pixel whose sample count is not positive keeps its prior
snapshot value instead of being reset to black. -/
def snapUpdateFrom (fb : List Color) (rc : List ℚ) : Nat → List Color → List Color
  | _, [] => []
  | i, old :: rest =>
    (if i < fb.length then
      (if 0 < rc.getD i 0 then fb.getD i Color.black / rc.getD i 0 else old)
     else old) :: snapUpdateFrom fb rc (i + 1) rest

/-- One recomputation cycle of
`Path_Tracer::continuous_snapshot_update_loop_synchronized`: if the
framebuffer, ray-counter and snapshot buffers are all non-empty and of equal
size, normalize pixel by pixel (keeping zero-count pixels); otherwise leave
the snapshot untouched. -/
def continuous_snapshot_update (fb : List Color) (rc : List ℚ) (snap : List Color) :
    List Color :=
  if !fb.isEmpty && !rc.isEmpty && fb.length == rc.length && fb.length == snap.length then
    snapUpdateFrom fb rc 0 snap
  else
    snap

/-! ## Recursive ray evaluation (Path_Tracer.cpp `trace_ray`)

The collaborators the tracer consumes through narrow interfaces — spatial
structure traversal, material scattering, sky sampling, vector
normalization — are fields of an environment record; `I` is the
collaborator's intersection record type. -/

/-- A 3-D vector over ℚ. -/
structure Vec3 where
  x : ℚ
  y : ℚ
  z : ℚ
deriving DecidableEq, Repr

/-- A ray: origin and direction. -/
structure Ray where
  origin : Vec3
  direction : Vec3
deriving DecidableEq, Repr

/-- The external collaborators `trace_ray` consumes: `traverse(ray, t_min,
t_max)` yielding the nearest intersection in range if any, the intersected
material's `scatter` yielding a scattered ray and an attenuation if the
material scatters, the sky environment's `sample`, and `glm::normalize`. -/
structure TraceEnv (I : Type) where
  traverse : Ray → ℚ → ℚ → Option I
  scatter : Ray → I → Option (Ray × Color)
  sky : Vec3 → Color
  normalize : Vec3 → Vec3

/-- `Path_Tracer::recursion_limit = 10`. -/
def recursion_limit : Nat := 10

/-- `Path_Tracer::trace_ray`: intersect within `[0.0001, 10000]`; on a
scattering hit recurse with `depth + 1` while `depth < recursion_limit`,
modulating by the attenuation, and return the attenuation alone at the limit;
on an absorbing hit return black; on a miss sample the sky at the normalized
ray direction. -/
def trace_ray {I : Type} (env : TraceEnv I) (ray : Ray) (depth : Nat) : Color :=
  match env.traverse ray (1 / 10000) 10000 with
  | some intersection =>
    match env.scatter ray intersection with
    | some (scattered_ray, attenuation) =>
      if _h : depth < recursion_limit then
        attenuation * trace_ray env scattered_ray (depth + 1)
      else
        attenuation
    | none => Color.black
  | none => env.sky (env.normalize ray.direction)
termination_by recursion_limit - depth
decreasing_by omega

/-- A concrete collaborator environment whose spatial structure reports no
intersection, used to witness the `trace_ray` characterization. -/
def demoEnv : TraceEnv Unit where
  traverse := fun _ _ _ => none
  scatter := fun _ _ => none
  sky := fun _ => ⟨1, 2, 3⟩
  normalize := fun v => v

/-- A concrete ray for the `trace_ray` witness. -/
def demoRay : Ray := { origin := ⟨0, 0, 0⟩, direction := ⟨0, 0, 1⟩ }

/-! ## Camera-change detection and sequential sample accumulation
(Path_Tracer.hpp `check_camera_change_stage`, Path_Tracer.cpp
`sample_primary_rays_stage`, single-threaded path) -/

/-- The accumulator state a `trace` call touches, at a fixed viewport. -/
structure TracerBuffers where
  framebuffer : List Color
  ray_counters : List ℚ
deriving DecidableEq, Repr

/-- `Path_Tracer::check_camera_change_stage`: if the camera transform changed
since the last check, clear both accumulators; otherwise leave them alone. -/
def check_camera_change_stage (camera_changed : Bool) (s : TracerBuffers) :
    TracerBuffers :=
  if camera_changed then
    { framebuffer := List.replicate s.framebuffer.length Color.black,
      ray_counters := List.replicate s.ray_counters.length 0 }
  else
    s

/-- The single-threaded path of `Path_Tracer::sample_primary_rays_stage`:
for every pixel, add `iterations` traced sample colors into the framebuffer
and add 1 to the pixel's ray counter per sample.  `sample i k` stands for the
color `trace_ray(primary_rays[i], ...)` returns for the k-th iteration at
pixel `i`. -/
def sample_primary_rays_seq (sample : Nat → Nat → Color) (iterations : Nat)
    (s : TracerBuffers) : TracerBuffers :=
  { framebuffer :=
      s.framebuffer.mapIdx (fun i c =>
        (List.range iterations).foldl (fun acc k => acc + sample i k) c),
    ray_counters := s.ray_counters.map (fun n => n + (iterations : ℚ)) }

/-- A `trace` call's effect on the accumulators at a fixed viewport in
sequential mode: camera-change check, then sample accumulation (the other
pipeline stages do not touch the accumulators). -/
def trace_call (camera_changed : Bool) (sample : Nat → Nat → Color)
    (iterations : Nat) (s : TracerBuffers) : TracerBuffers :=
  sample_primary_rays_seq sample iterations (check_camera_change_stage camera_changed s)

/-! ## Batched tile submission loop (Path_Tracer.cpp
`sample_primary_rays_stage`, multi-threaded path) -/

/-- `MAX_TASKS_PER_BATCH = std::thread::hardware_concurrency() * 4`. -/
def MAX_TASKS_PER_BATCH (hw : Nat) : Nat := hw * 4

/-- The batch loop `for (batch_start = 0; batch_start < total; batch_start +=
step)`, with explicit fuel: returns the number of iterations the loop ran if
it exits within `fuel` iterations, and `none` otherwise. -/
def batch_loop (step total : Nat) : Nat → Nat → Option Nat
  | 0, start => if start < total then none else some 0
  | fuel + 1, start =>
    if start < total then
      (batch_loop step total fuel (start + step)).map (fun k => k + 1)
    else
      some 0

/-! ## Continuous-update synchronization protocol
(Path_Tracer.cpp: `start_continuous_updates`, `stop_continuous_updates`,
`continuous_snapshot_update_loop_synchronized`, `trace_tile_synchronized`,
`sample_primary_rays_stage`)

The shared synchronization state and the atomic steps the threads take on it
form a labelled transition system.  `inflight` is a ghost variable counting
submitted-but-unfinished tile tasks; a new pass can only begin once the
orchestrating thread's `wait_for_tasks_()` has drained the previous one, which
the `beginPass` guard `inflight = 0` reflects. -/

/-- The shared continuous-update synchronization state of `Path_Tracer`. -/
structure CUState where
  tiles_completed : Bool
  active_tile_count : Int
  continuous_updates_active : Bool
  inflight : Nat
deriving DecidableEq, Repr

/-- The state the `Path_Tracer` constructor establishes: `tiles_completed =
true`, `active_tile_count = 0`, continuous updates inactive, nothing in
flight. -/
def CUState.init : CUState :=
  { tiles_completed := true, active_tile_count := 0,
    continuous_updates_active := false, inflight := 0 }

/-- The atomic steps of the protocol:
`startCU` = `start_continuous_updates` (no-op when already active, else
resets the flag to true and the counter to zero and activates);
`stopCU` = `stop_continuous_updates` (deactivates, forces the flag true);
`beginPass n` = the tiled `sample_primary_rays_stage` storing
`active_tile_count = total_tiles` and submitting `n` tile tasks;
`tileFinish` = the tail of `trace_tile_synchronized` (decrement, setting the
flag when the decrement reaches zero);
`singleThreadDone` = the sequential path's completion signal;
`pubRecompute` = one recomputation cycle of the publisher loop (runs only
while active and gated on `tiles_completed`, then resets the flag). -/
inductive CUAction where
  | startCU
  | stopCU
  | beginPass (n : Nat)
  | tileFinish
  | singleThreadDone
  | pubRecompute
deriving DecidableEq, Repr

/-- One atomic step of the protocol; `none` when the step is not enabled in
the given state. -/
def CUstep (s : CUState) : CUAction → Option CUState
  | .startCU =>
    if s.continuous_updates_active then
      some s
    else
      some { s with tiles_completed := true, active_tile_count := 0,
                    continuous_updates_active := true }
  | .stopCU =>
    some { s with continuous_updates_active := false, tiles_completed := true }
  | .beginPass n =>
    if s.inflight = 0 then
      some { s with active_tile_count := (n : Int), inflight := n }
    else
      none
  | .tileFinish =>
    if 0 < s.inflight then
      some { s with
        active_tile_count := s.active_tile_count - 1,
        inflight := s.inflight - 1,
        tiles_completed :=
          if s.active_tile_count - 1 = 0 then true else s.tiles_completed }
    else
      none
  | .singleThreadDone =>
    if s.inflight = 0 then
      some { s with tiles_completed := true }
    else
      none
  | .pubRecompute =>
    if s.continuous_updates_active && s.tiles_completed then
      some { s with tiles_completed := false }
    else
      none

/-- Running a sequence of protocol steps; `none` if some step is disabled. -/
def CUrun (s : CUState) : List CUAction → Option CUState
  | [] => some s
  | a :: rest =>
    match CUstep s a with
    | some t => CUrun t rest
    | none => none

/-- A trace is paced when every `beginPass` is taken from a state in which
the publisher has already consumed the previous completion signal
(`tiles_completed = false`). -/
def pacedFrom (s : CUState) : List CUAction → Bool
  | [] => true
  | a :: rest =>
    (match a with
     | .beginPass _ => !s.tiles_completed
     | _ => true) &&
    (match CUstep s a with
     | some t => pacedFrom t rest
     | none => true)

/-! ## Helper lemmas on the priority selection -/

theorem selectTop_none_iff (l : List QTask) : selectTop l = none ↔ l = [] := by
  cases l with
  | nil => simp [selectTop]
  | cons a ts =>
    simp only [selectTop]
    constructor
    · intro h
      cases hts : selectTop ts with
      | none => rw [hts] at h; exact absurd h (by simp)
      | some pr =>
        obtain ⟨u, urest⟩ := pr
        rw [hts] at h
        by_cases hc : prioVal u.priority < prioVal a.priority <;> simp [hc] at h
    · intro h; exact absurd h (by simp)

theorem selectTop_perm (l : List QTask) (t : QTask) (rest : List QTask)
    (h : selectTop l = some (t, rest)) : (t :: rest).Perm l := by
  induction l generalizing t rest with
  | nil => simp [selectTop] at h
  | cons a ts ih =>
    simp only [selectTop] at h
    cases hts : selectTop ts with
    | none =>
      rw [hts] at h
      simp only [Option.some.injEq, Prod.mk.injEq] at h
      obtain ⟨h1, h2⟩ := h
      rw [← h1, ← h2, (selectTop_none_iff ts).1 hts]
    | some pr =>
      obtain ⟨u, urest⟩ := pr
      rw [hts] at h
      by_cases hc : prioVal u.priority < prioVal a.priority
      · simp only [if_pos hc, Option.some.injEq, Prod.mk.injEq] at h
        obtain ⟨h1, h2⟩ := h
        rw [← h1, ← h2]
        exact (List.Perm.swap a u urest).trans ((ih u urest hts).cons a)
      · simp only [if_neg hc, Option.some.injEq, Prod.mk.injEq] at h
        obtain ⟨h1, h2⟩ := h
        rw [← h1, ← h2]

theorem selectTop_min (l : List QTask) (t : QTask) (rest : List QTask)
    (h : selectTop l = some (t, rest)) :
    ∀ u ∈ l, prioVal t.priority ≤ prioVal u.priority := by
  induction l generalizing t rest with
  | nil => simp [selectTop] at h
  | cons a ts ih =>
    simp only [selectTop] at h
    cases hts : selectTop ts with
    | none =>
      rw [hts] at h
      simp only [Option.some.injEq, Prod.mk.injEq] at h
      obtain ⟨h1, _⟩ := h
      subst h1
      have hts0 : ts = [] := (selectTop_none_iff ts).1 hts
      subst hts0
      intro u hu
      simp at hu
      subst hu
      exact le_refl _
    | some pr =>
      obtain ⟨v, vrest⟩ := pr
      rw [hts] at h
      have hmin := ih v vrest hts
      by_cases hc : prioVal v.priority < prioVal a.priority
      · simp only [if_pos hc, Option.some.injEq, Prod.mk.injEq] at h
        obtain ⟨h1, _⟩ := h
        subst h1
        intro u hu
        cases List.mem_cons.1 hu with
        | inl hu => subst hu; exact le_of_lt hc
        | inr hu => exact hmin u hu
      · simp only [if_neg hc, Option.some.injEq, Prod.mk.injEq] at h
        obtain ⟨h1, _⟩ := h
        subst h1
        intro u hu
        cases List.mem_cons.1 hu with
        | inl hu => subst hu; exact le_refl _
        | inr hu => exact le_trans (not_lt.1 hc) (hmin u hu)

/-! ## Uniqueness invariant for queue histories -/

/-- All task identities a history state knows of: those still queued and
those already returned to clients. -/
def stateIds (s : RunState) : List Nat :=
  s.q.tasks.map QTask.id ++ s.returned.map QTask.id

/-- History invariant: task identities are pairwise distinct and below the
fresh-id counter. -/
def QInv (s : RunState) : Prop :=
  (stateIds s).Nodup ∧ ∀ i ∈ stateIds s, i < s.nextId

theorem popish_inv (s : RunState) (t : QTask) (rest : List QTask)
    (hsel : selectTop s.q.tasks = some (t, rest)) (h : QInv s) :
    QInv { s with q := { s.q with tasks := rest }, returned := s.returned ++ [t] } := by
  obtain ⟨hnd, hbd⟩ := h
  have hperm : ((t :: rest).map QTask.id).Perm (s.q.tasks.map QTask.id) :=
    (selectTop_perm _ _ _ hsel).map _
  have hids :
      (stateIds { s with q := { s.q with tasks := rest },
                         returned := s.returned ++ [t] }).Perm (stateIds s) := by
    simp only [stateIds, List.map_append, List.map_cons, List.map_nil]
    refine (List.Perm.append_left (rest.map QTask.id)
      (List.Perm.refl _)).trans ?_
    have h1 : (rest.map QTask.id ++ (s.returned.map QTask.id ++ [t.id])).Perm
        (rest.map QTask.id ++ ([t.id] ++ s.returned.map QTask.id)) :=
      List.Perm.append_left _ (List.perm_append_comm)
    refine h1.trans ?_
    have h2 : rest.map QTask.id ++ ([t.id] ++ s.returned.map QTask.id) =
        (rest.map QTask.id ++ [t.id]) ++ s.returned.map QTask.id := by
      simp [List.append_assoc]
    rw [h2]
    refine List.Perm.append_right _ ?_ |>.trans
      (List.Perm.append_right _ (hperm))
    exact (List.perm_append_singleton t.id (rest.map QTask.id)).trans (List.Perm.refl _)
  constructor
  · exact hids.nodup_iff.mpr hnd
  · intro i hi
    exact hbd i (hids.mem_iff.mp hi)

theorem qstep_inv (s : RunState) (op : QOp) (h : QInv s) : QInv (qstep s op) := by
  obtain ⟨hnd, hbd⟩ := h
  cases op with
  | push p =>
    constructor
    · simp only [stateIds, qstep, Task_Queue.push, List.map_cons, List.cons_append,
        List.nodup_cons]
      refine ⟨fun hmem => absurd (hbd _ hmem) (lt_irrefl _), hnd⟩
    · intro i hi
      simp only [stateIds, qstep, Task_Queue.push, List.map_cons,
        List.cons_append, List.mem_cons] at hi
      cases hi with
      | inl hi => simp [qstep, hi]
      | inr hi =>
        have := hbd i hi
        simp only [qstep]
        omega
  | pop =>
    cases hsel : selectTop s.q.tasks with
    | some pr =>
      obtain ⟨t, rest⟩ := pr
      have hred : qstep s QOp.pop =
          { s with q := { s.q with tasks := rest }, returned := s.returned ++ [t] } := by
        simp [qstep, Task_Queue.pop, hsel]
      rw [hred]
      exact popish_inv s t rest hsel ⟨hnd, hbd⟩
    | none =>
      by_cases hstop : s.q.stop_flag <;>
        simp only [qstep, Task_Queue.pop, hsel, hstop, if_true, if_false] <;>
        exact ⟨hnd, hbd⟩
  | tryPop =>
    cases hsel : selectTop s.q.tasks with
    | some pr =>
      obtain ⟨t, rest⟩ := pr
      have hred : qstep s QOp.tryPop =
          { s with q := { s.q with tasks := rest }, returned := s.returned ++ [t] } := by
        simp [qstep, Task_Queue.try_pop, hsel]
      rw [hred]
      exact popish_inv s t rest hsel ⟨hnd, hbd⟩
    | none =>
      simp only [qstep, Task_Queue.try_pop, hsel]
      exact ⟨hnd, hbd⟩
  | stop => exact ⟨hnd, hbd⟩

theorem foldl_qstep_inv (ops : List QOp) :
    ∀ s : RunState, QInv s → QInv (ops.foldl qstep s) := by
  induction ops with
  | nil => intro s h; exact h
  | cons op rest ih =>
    intro s h
    exact ih (qstep s op) (qstep_inv s op h)

theorem runOps_inv (ops : List QOp) : QInv (runOps ops) := by
  refine foldl_qstep_inv ops _ ⟨?_, ?_⟩ <;> simp [stateIds, Task_Queue.init]

/-- C2: for every history of push/pop/try_pop operations, each pushed task is
returned to a client at most once (the ids of returned tasks are pairwise
distinct), and a task popped from a non-empty queue has maximal priority —
minimal `Task_Priority` enum value — among the tasks present at the moment of
the pop. -/
theorem task_queue_pop_max_and_unique (ops : List QOp) (t : QTask) (q₂ : Task_Queue)
    (hpop : (runOps ops).q.pop = (PopResult.task t, q₂)) :
    ((runOps ops).returned.map QTask.id).Nodup ∧
    ∀ u ∈ (runOps ops).q.tasks, prioVal t.priority ≤ prioVal u.priority := by
  constructor
  · have h := (runOps_inv ops).1
    exact (List.nodup_append.mp h).2.1
  · cases hsel : selectTop (runOps ops).q.tasks with
    | none =>
      exfalso
      by_cases hstop : (runOps ops).q.stop_flag <;>
        simp [Task_Queue.pop, hsel, hstop] at hpop
    | some pr =>
      obtain ⟨v, rest⟩ := pr
      have : v = t := by
        simp only [Task_Queue.pop, hsel, Prod.mk.injEq] at hpop
        exact (PopResult.task.injEq v t).mp hpop.1
      subst this
      exact selectTop_min _ _ _ hsel

/-- Witness for C2 at a concrete history: LOW then HIGH pushed; the pop
returns the HIGH task. -/
theorem task_queue_pop_max_and_unique_witness :
    ((runOps [QOp.push Task_Priority.LOW, QOp.push Task_Priority.HIGH]).returned.map
      QTask.id).Nodup ∧
    ∀ u ∈ (runOps [QOp.push Task_Priority.LOW, QOp.push Task_Priority.HIGH]).q.tasks,
      prioVal (QTask.mk 1 Task_Priority.HIGH).priority ≤ prioVal u.priority :=
  task_queue_pop_max_and_unique
    [QOp.push Task_Priority.LOW, QOp.push Task_Priority.HIGH]
    ⟨1, Task_Priority.HIGH⟩
    { tasks := [⟨0, Task_Priority.LOW⟩], stop_flag := false }
    (by decide)

/-! ## Stop semantics (C4) -/

theorem drainStoppedAux_perm :
    ∀ (fuel : Nat) (l : List QTask), l.length ≤ fuel → (drainStoppedAux fuel l).Perm l := by
  intro fuel
  induction fuel with
  | zero =>
    intro l hl
    have : l = [] := List.length_eq_zero.mp (Nat.le_zero.mp hl)
    subst this
    simp [drainStoppedAux]
  | succ n ih =>
    intro l hl
    simp only [drainStoppedAux]
    cases hsel : selectTop l with
    | none =>
      rw [(selectTop_none_iff l).1 hsel]
    | some pr =>
      obtain ⟨t, rest⟩ := pr
      have hperm : (t :: rest).Perm l := selectTop_perm _ _ _ hsel
      have hlen : rest.length + 1 = l.length := by
        have := hperm.length_eq
        simpa using this
      have hrest : rest.length ≤ n := by omega
      exact ((ih rest hrest).cons t).trans hperm

/-- C4: `stop()` is idempotent and loses no queued task; after `stop()` a
`pop()` never blocks — it yields a task exactly while the queue is non-empty
and the null sentinel exactly when it is empty — and repeatedly popping a
stopped queue drains precisely the tasks that were queued. -/
theorem task_queue_stop_semantics (q : Task_Queue) :
    (q.stop.stop = q.stop) ∧
    (q.stop.tasks = q.tasks) ∧
    (∀ r q₂, q.stop.pop = (r, q₂) → r ≠ PopResult.blocked) ∧
    (q.tasks = [] → q.stop.pop = (PopResult.sentinel, q.stop)) ∧
    (q.tasks ≠ [] → ∃ t q₂, q.stop.pop = (PopResult.task t, q₂)) ∧
    (drainStopped q.stop.tasks).Perm q.tasks := by
  refine ⟨rfl, rfl, ?_, ?_, ?_, ?_⟩
  · intro r q₂ hpop
    cases hsel : selectTop q.tasks with
    | some pr =>
      obtain ⟨t, rest⟩ := pr
      simp only [Task_Queue.pop, Task_Queue.stop, hsel, Prod.mk.injEq] at hpop
      rw [← hpop.1]
      simp
    | none =>
      simp only [Task_Queue.pop, Task_Queue.stop, hsel, if_true, Prod.mk.injEq] at hpop
      rw [← hpop.1]
      simp
  · intro hnil
    have hsel : selectTop q.tasks = none := by rw [hnil]; rfl
    simp [Task_Queue.pop, Task_Queue.stop, hsel]
  · intro hne
    cases hsel : selectTop q.tasks with
    | none =>
      exact absurd ((selectTop_none_iff _).1 hsel) hne
    | some pr =>
      obtain ⟨t, rest⟩ := pr
      exact ⟨t, { tasks := rest, stop_flag := true },
        by simp [Task_Queue.pop, Task_Queue.stop, hsel]⟩
  · exact drainStoppedAux_perm _ _ (le_refl _)

/-- Witness for C4 at a concrete queue holding one NORMAL task. -/
theorem task_queue_stop_semantics_witness :
    (demoQueue.stop.stop = demoQueue.stop) ∧
    (demoQueue.stop.tasks = demoQueue.tasks) ∧
    (∀ r q₂, demoQueue.stop.pop = (r, q₂) → r ≠ PopResult.blocked) ∧
    (demoQueue.tasks = [] →
      demoQueue.stop.pop = (PopResult.sentinel, demoQueue.stop)) ∧
    (demoQueue.tasks ≠ [] →
      ∃ t q₂, demoQueue.stop.pop = (PopResult.task t, q₂)) ∧
    (drainStopped demoQueue.stop.tasks).Perm demoQueue.tasks :=
  task_queue_stop_semantics demoQueue

/-! ## Thread pool constructor thread count (C7) -/

/-- C7 fails as stated: with a zero constructor argument and a hardware
concurrency of 1, the pool spawns a single worker thread — fewer than the
claimed minimum of 2. -/
theorem thread_pool_min_two_violated :
    effective_thread_count 0 1 = 1 ∧ effective_thread_count 0 1 < 2 := by
  decide

/-- C7 amended: a nonzero argument spawns exactly that many threads; a zero
argument falls back to the hardware concurrency, and to 2 only when the
hardware concurrency itself reports 0 — so at least one thread always
exists, but there is no general minimum of 2. -/
theorem thread_pool_thread_count_amended (c hw : Nat) :
    (c ≠ 0 → effective_thread_count c hw = c) ∧
    (c = 0 → hw ≠ 0 → effective_thread_count c hw = hw) ∧
    (c = 0 → hw = 0 → effective_thread_count c hw = 2) ∧
    (c = 0 → 1 ≤ effective_thread_count c hw) := by
  unfold effective_thread_count
  refine ⟨fun h => by simp [h], fun h1 h2 => by simp [h1, h2], fun h1 h2 => by simp [h1, h2],
    fun h1 => ?_⟩
  by_cases h2 : hw = 0
  · simp [h1, h2]
  · simp [h1, h2]
    omega

/-- Witness for C7's amended statement at argument 0 and hardware
concurrency 4. -/
theorem thread_pool_thread_count_amended_witness :
    ((0 : Nat) ≠ 0 → effective_thread_count 0 4 = 0) ∧
    ((0 : Nat) = 0 → (4 : Nat) ≠ 0 → effective_thread_count 0 4 = 4) ∧
    ((0 : Nat) = 0 → (4 : Nat) = 0 → effective_thread_count 0 4 = 2) ∧
    ((0 : Nat) = 0 → 1 ≤ effective_thread_count 0 4) :=
  thread_pool_thread_count_amended 0 4

/-! ## Pool manager locking (C8) -/

/-- C8 fails as stated: neither `get_pool` (hit or miss path) nor
`initialize` performs its registry accesses under any lock. -/
theorem pool_registry_lock_claim_false :
    ¬ (registryGuarded get_pool_trace_miss = true ∧
       registryGuarded get_pool_trace_hit = true ∧
       registryGuarded init_pools_trace = true) := by
  decide

/-- C8 amended: the pool registry accesses of `get_pool` and `initialize`
are unguarded — no lock is ever held around them — while the only lock in
the manager, `instance_mutex`, guards the singleton `instance` write inside
`get_instance`. -/
theorem pool_registry_unguarded :
    registryGuarded get_pool_trace_miss = false ∧
    registryGuarded get_pool_trace_hit = false ∧
    registryGuarded init_pools_trace = false ∧
    instanceWriteGuarded get_instance_trace = true := by
  decide

/-! ## Pixelwise behaviour of the snapshot computations (C5, C10) -/

theorem getSnapshotFrom_getD (fb : List Color) (rc : List ℚ) :
    ∀ (snap : List Color) (i j : Nat), j < snap.length →
      (getSnapshotFrom fb rc i snap).getD j Color.black =
        if i + j < fb.length then
          (if 0 < rc.getD (i + j) 0 then
            fb.getD (i + j) Color.black / rc.getD (i + j) 0
          else Color.black)
        else snap.getD j Color.black := by
  intro snap
  induction snap with
  | nil => intro i j hj; simp at hj
  | cons old rest ih =>
    intro i j hj
    cases j with
    | zero =>
      simp [getSnapshotFrom]
    | succ k =>
      have hk : k < rest.length := by simpa using hj
      have hrw : i + (k + 1) = (i + 1) + k := by omega
      simp only [getSnapshotFrom, List.getD_cons_succ, hrw]
      exact ih (i + 1) k hk

theorem snapUpdateFrom_getD (fb : List Color) (rc : List ℚ) :
    ∀ (snap : List Color) (i j : Nat), j < snap.length →
      (snapUpdateFrom fb rc i snap).getD j Color.black =
        if i + j < fb.length then
          (if 0 < rc.getD (i + j) 0 then
            fb.getD (i + j) Color.black / rc.getD (i + j) 0
          else snap.getD j Color.black)
        else snap.getD j Color.black := by
  intro snap
  induction snap with
  | nil => intro i j hj; simp at hj
  | cons old rest ih =>
    intro i j hj
    cases j with
    | zero =>
      simp [snapUpdateFrom]
    | succ k =>
      have hk : k < rest.length := by simpa using hj
      have hrw : i + (k + 1) = (i + 1) + k := by omega
      simp only [snapUpdateFrom, List.getD_cons_succ, hrw]
      exact ih (i + 1) k hk

/-- C5: in one publisher recomputation cycle, when the framebuffer, counter
and snapshot buffers are all non-empty and of equal size, a pixel with a
positive sample count becomes `framebuffer[i] / ray_counters[i]` and a pixel
with count 0 keeps its prior snapshot value; when the size precondition
fails, the snapshot is returned unchanged. -/
theorem continuous_snapshot_update_cycle (fb : List Color) (rc : List ℚ)
    (snap : List Color) (i : Nat) (hi : i < snap.length) :
    ((fb ≠ [] ∧ rc ≠ [] ∧ fb.length = rc.length ∧ fb.length = snap.length) →
      (0 < rc.getD i 0 →
        (continuous_snapshot_update fb rc snap).getD i Color.black =
          fb.getD i Color.black / rc.getD i 0) ∧
      (rc.getD i 0 = 0 →
        (continuous_snapshot_update fb rc snap).getD i Color.black =
          snap.getD i Color.black)) ∧
    (¬ (fb ≠ [] ∧ rc ≠ [] ∧ fb.length = rc.length ∧ fb.length = snap.length) →
      continuous_snapshot_update fb rc snap = snap) := by
  constructor
  · intro hcond
    obtain ⟨h1, h2, h3, h4⟩ := hcond
    have hb : (!fb.isEmpty && !rc.isEmpty && (fb.length == rc.length) &&
        (fb.length == snap.length)) = true := by
      simp [List.isEmpty_iff, h1, h2, h3, h4]
      omega
    have hred : continuous_snapshot_update fb rc snap = snapUpdateFrom fb rc 0 snap := by
      simp [continuous_snapshot_update, hb]
    have hgd := snapUpdateFrom_getD fb rc snap 0 i hi
    simp only [Nat.zero_add] at hgd
    have hfbi : i < fb.length := by omega
    rw [hred, hgd, if_pos hfbi]
    constructor
    · intro hpos
      rw [if_pos hpos]
    · intro hzero
      rw [if_neg (by rw [hzero]; exact lt_irrefl 0)]
  · intro hcond
    by_cases hb : (!fb.isEmpty && !rc.isEmpty && (fb.length == rc.length) &&
        (fb.length == snap.length)) = true
    · exfalso
      apply hcond
      simpa [List.isEmpty_iff, and_assoc] using hb
    · simp [continuous_snapshot_update, Bool.of_not_eq_true hb]

/-- Witness for C5 at concrete buffers of size 2 and pixel 1. -/
theorem continuous_snapshot_update_cycle_witness :
    ((([⟨2, 4, 6⟩, ⟨1, 1, 1⟩] : List Color) ≠ [] ∧ ([2, 0] : List ℚ) ≠ [] ∧
      ([⟨2, 4, 6⟩, ⟨1, 1, 1⟩] : List Color).length = ([2, 0] : List ℚ).length ∧
      ([⟨2, 4, 6⟩, ⟨1, 1, 1⟩] : List Color).length =
        ([⟨9, 9, 9⟩, ⟨5, 5, 5⟩] : List Color).length) →
      (0 < ([2, 0] : List ℚ).getD 1 0 →
        (continuous_snapshot_update [⟨2, 4, 6⟩, ⟨1, 1, 1⟩] [2, 0]
          [⟨9, 9, 9⟩, ⟨5, 5, 5⟩]).getD 1 Color.black =
          ([⟨2, 4, 6⟩, ⟨1, 1, 1⟩] : List Color).getD 1 Color.black /
            ([2, 0] : List ℚ).getD 1 0) ∧
      (([2, 0] : List ℚ).getD 1 0 = 0 →
        (continuous_snapshot_update [⟨2, 4, 6⟩, ⟨1, 1, 1⟩] [2, 0]
          [⟨9, 9, 9⟩, ⟨5, 5, 5⟩]).getD 1 Color.black =
          ([⟨9, 9, 9⟩, ⟨5, 5, 5⟩] : List Color).getD 1 Color.black)) ∧
    (¬ (([⟨2, 4, 6⟩, ⟨1, 1, 1⟩] : List Color) ≠ [] ∧ ([2, 0] : List ℚ) ≠ [] ∧
      ([⟨2, 4, 6⟩, ⟨1, 1, 1⟩] : List Color).length = ([2, 0] : List ℚ).length ∧
      ([⟨2, 4, 6⟩, ⟨1, 1, 1⟩] : List Color).length =
        ([⟨9, 9, 9⟩, ⟨5, 5, 5⟩] : List Color).length) →
      continuous_snapshot_update [⟨2, 4, 6⟩, ⟨1, 1, 1⟩] [2, 0]
        [⟨9, 9, 9⟩, ⟨5, 5, 5⟩] = [⟨9, 9, 9⟩, ⟨5, 5, 5⟩]) :=
  continuous_snapshot_update_cycle [⟨2, 4, 6⟩, ⟨1, 1, 1⟩] [2, 0]
    [⟨9, 9, 9⟩, ⟨5, 5, 5⟩] 1 (by decide)

/-- C10: the on-demand `get_snapshot` resets a pixel with sample count 0 to
black — unlike the publisher's cycle, which keeps such a pixel's prior
snapshot value — and normalizes a pixel with positive count to accumulated
color over count. -/
theorem get_snapshot_zero_count_black (fb : List Color) (rc : List ℚ)
    (snap : List Color) (i : Nat) (hi : i < snap.length)
    (hsz : fb.length = snap.length) :
    (rc.getD i 0 = 0 →
      (get_snapshot fb rc snap).getD i Color.black = Color.black ∧
      (snapUpdateFrom fb rc 0 snap).getD i Color.black = snap.getD i Color.black) ∧
    (0 < rc.getD i 0 →
      (get_snapshot fb rc snap).getD i Color.black =
        fb.getD i Color.black / rc.getD i 0) := by
  have hgd := getSnapshotFrom_getD fb rc snap 0 i hi
  have hgd2 := snapUpdateFrom_getD fb rc snap 0 i hi
  simp only [Nat.zero_add] at hgd hgd2
  have hfbi : i < fb.length := by omega
  rw [if_pos hfbi] at hgd
  rw [if_pos hfbi] at hgd2
  constructor
  · intro hzero
    have hneg : ¬ 0 < rc.getD i 0 := by rw [hzero]; exact lt_irrefl 0
    constructor
    · rw [get_snapshot, hgd, if_neg hneg]
    · rw [hgd2, if_neg hneg]
  · intro hpos
    rw [get_snapshot, hgd, if_pos hpos]

/-- Witness for C10 at concrete buffers of size 2 and pixel 1 (count 0). -/
theorem get_snapshot_zero_count_black_witness :
    ((([2, 0] : List ℚ).getD 1 0 = 0 →
      (get_snapshot [⟨2, 4, 6⟩, ⟨1, 1, 1⟩] [2, 0]
        [⟨9, 9, 9⟩, ⟨5, 5, 5⟩]).getD 1 Color.black = Color.black ∧
      (snapUpdateFrom [⟨2, 4, 6⟩, ⟨1, 1, 1⟩] [2, 0] 0
        [⟨9, 9, 9⟩, ⟨5, 5, 5⟩]).getD 1 Color.black =
        ([⟨9, 9, 9⟩, ⟨5, 5, 5⟩] : List Color).getD 1 Color.black) ∧
    (0 < ([2, 0] : List ℚ).getD 1 0 →
      (get_snapshot [⟨2, 4, 6⟩, ⟨1, 1, 1⟩] [2, 0]
        [⟨9, 9, 9⟩, ⟨5, 5, 5⟩]).getD 1 Color.black =
        ([⟨2, 4, 6⟩, ⟨1, 1, 1⟩] : List Color).getD 1 Color.black /
          ([2, 0] : List ℚ).getD 1 0)) :=
  get_snapshot_zero_count_black [⟨2, 4, 6⟩, ⟨1, 1, 1⟩] [2, 0]
    [⟨9, 9, 9⟩, ⟨5, 5, 5⟩] 1 (by decide) (by decide)

/-! ## Recursive ray evaluation (C3) -/

/-- C3: `trace_ray` searches for an intersection within `[0.0001, 10000]`;
on a miss it returns the sky sampled at the normalized direction; on an
absorbing hit it returns black; on a scattering hit it recurses with
`depth + 1` while `depth < 10`, modulating by the attenuation, and returns
the attenuation alone once the depth limit is reached. -/
theorem trace_ray_spec_conformance {I : Type} (env : TraceEnv I) (ray : Ray)
    (depth : Nat) :
    (env.traverse ray (1 / 10000) 10000 = none →
      trace_ray env ray depth = env.sky (env.normalize ray.direction)) ∧
    (∀ isect, env.traverse ray (1 / 10000) 10000 = some isect →
      (env.scatter ray isect = none → trace_ray env ray depth = Color.black) ∧
      (∀ sr att, env.scatter ray isect = some (sr, att) →
        (depth < recursion_limit →
          trace_ray env ray depth = att * trace_ray env sr (depth + 1)) ∧
        (recursion_limit ≤ depth → trace_ray env ray depth = att))) := by
  constructor
  · intro hmiss
    rw [trace_ray, hmiss]
  · intro isect hhit
    constructor
    · intro habs
      rw [trace_ray, hhit]
      simp only [habs]
    · intro sr att hscat
      constructor
      · intro hdep
        rw [trace_ray, hhit]
        simp only [hscat]
        rw [dif_pos hdep]
      · intro hdep
        rw [trace_ray, hhit]
        simp only [hscat]
        rw [dif_neg (not_lt.2 hdep)]

/-- Witness for C3: in the no-intersection environment, a ray at depth 5
evaluates to the sky color. -/
theorem trace_ray_spec_conformance_witness :
    demoEnv.traverse demoRay (1 / 10000) 10000 = none ∧
    trace_ray demoEnv demoRay 5 = demoEnv.sky (demoEnv.normalize demoRay.direction) :=
  ⟨rfl, (trace_ray_spec_conformance demoEnv demoRay 5).1 rfl⟩

/-! ## Camera-movement detection (C6) -/

/-- C6: a changed camera transform zeroes both accumulators before the pass
samples; an unchanged camera with at least one iteration strictly increases
every pixel's accumulated sample count across the `trace` call. -/
theorem camera_change_accumulator_semantics (changed : Bool)
    (sample : Nat → Nat → Color) (iterations : Nat) (s : TracerBuffers)
    (hiter : 1 ≤ iterations) :
    (changed = true →
      check_camera_change_stage changed s =
        { framebuffer := List.replicate s.framebuffer.length Color.black,
          ray_counters := List.replicate s.ray_counters.length 0 }) ∧
    (changed = false → ∀ i, i < s.ray_counters.length →
      s.ray_counters.getD i 0 <
        (trace_call changed sample iterations s).ray_counters.getD i 0) := by
  constructor
  · intro hch
    simp [check_camera_change_stage, hch]
  · intro hch i hi
    have hred : (trace_call changed sample iterations s).ray_counters =
        s.ray_counters.map (fun n => n + (iterations : ℚ)) := by
      simp [trace_call, check_camera_change_stage, hch, sample_primary_rays_seq]
    rw [hred]
    have hlen : i < (s.ray_counters.map (fun n => n + (iterations : ℚ))).length := by
      simpa using hi
    rw [List.getD_eq_getElem _ _ hlen, List.getD_eq_getElem _ _ hi,
      List.getElem_map]
    have hq : (1 : ℚ) ≤ (iterations : ℚ) := by exact_mod_cast hiter
    linarith

/-- Witness for C6 at a one-pixel buffer, unchanged camera, one iteration. -/
theorem camera_change_accumulator_semantics_witness :
    (false = true →
      check_camera_change_stage false ⟨[⟨0, 0, 0⟩], [3]⟩ =
        { framebuffer :=
            List.replicate (TracerBuffers.mk [⟨0, 0, 0⟩] [3]).framebuffer.length
              Color.black,
          ray_counters :=
            List.replicate (TracerBuffers.mk [⟨0, 0, 0⟩] [3]).ray_counters.length 0 }) ∧
    (false = false → ∀ i, i < (TracerBuffers.mk [⟨0, 0, 0⟩] [3]).ray_counters.length →
      (TracerBuffers.mk [⟨0, 0, 0⟩] [3]).ray_counters.getD i 0 <
        (trace_call false (fun _ _ => Color.black) 1
          ⟨[⟨0, 0, 0⟩], [3]⟩).ray_counters.getD i 0) :=
  camera_change_accumulator_semantics false (fun _ _ => Color.black) 1
    ⟨[⟨0, 0, 0⟩], [3]⟩ (by decide)

/-! ## Batched tile submission loop (C9) -/

theorem batch_loop_exits (step total : Nat) :
    ∀ (fuel start : Nat), total ≤ start + fuel * step →
      ∃ k, batch_loop step total fuel start = some k := by
  intro fuel
  induction fuel with
  | zero =>
    intro start hb
    simp only [Nat.zero_mul, Nat.add_zero] at hb
    refine ⟨0, ?_⟩
    simp [batch_loop, Nat.not_lt.2 hb]
  | succ n ih =>
    intro start hb
    by_cases hlt : start < total
    · have hb2 : total ≤ (start + step) + n * step := by
        have : (n + 1) * step = n * step + step := by ring
        omega
      obtain ⟨k, hk⟩ := ih (start + step) hb2
      refine ⟨k + 1, ?_⟩
      simp [batch_loop, hlt, hk]
    · refine ⟨0, ?_⟩
      simp [batch_loop, hlt]

/-- C9: with at least one hardware thread the batched tile-submission loop
terminates for every tile count (fuel equal to the tile count suffices);
with `hardware_concurrency() = 0` the batch size is 0 and the loop never
advances past `batch_start = 0`, so it never terminates on a non-empty tile
list. -/
theorem tile_batch_loop_termination (hw total : Nat) :
    (1 ≤ hw → ∃ k, batch_loop (MAX_TASKS_PER_BATCH hw) total total 0 = some k) ∧
    (hw = 0 → 0 < total →
      ∀ fuel, batch_loop (MAX_TASKS_PER_BATCH hw) total fuel 0 = none) := by
  constructor
  · intro hhw
    have hstep : 1 ≤ MAX_TASKS_PER_BATCH hw := by
      simp only [MAX_TASKS_PER_BATCH]
      omega
    refine batch_loop_exits _ total total 0 ?_
    have : total ≤ total * MAX_TASKS_PER_BATCH hw :=
      Nat.le_mul_of_pos_right total hstep
    omega
  · intro hhw htot fuel
    subst hhw
    induction fuel with
    | zero => simp [batch_loop, MAX_TASKS_PER_BATCH, htot]
    | succ n ih =>
      simp only [batch_loop, MAX_TASKS_PER_BATCH, Nat.zero_mul, Nat.add_zero] at ih ⊢
      simp [htot, ih]

/-- Witness for C9 at 2 hardware threads and 10 tiles, and at 0 hardware
threads and 10 tiles. -/
theorem tile_batch_loop_termination_witness :
    ((1 : Nat) ≤ 2 → ∃ k, batch_loop (MAX_TASKS_PER_BATCH 2) 10 10 0 = some k) ∧
    ((2 : Nat) = 0 → 0 < 10 →
      ∀ fuel, batch_loop (MAX_TASKS_PER_BATCH 2) 10 fuel 0 = none) :=
  tile_batch_loop_termination 2 10

/-! ## Continuous-update synchronization (C1) -/

/-- Protocol invariant: while the system is active with the completion flag
raised, no tiles of the current pass remain; and the tile counter never
exceeds the number of genuinely in-flight tile tasks. -/
def CUInv (s : CUState) : Prop :=
  (s.tiles_completed = true ∧ s.continuous_updates_active = true →
    s.active_tile_count ≤ 0) ∧
  s.active_tile_count ≤ (s.inflight : Int)

theorem CUstep_inv (s : CUState) (a : CUAction) (t : CUState)
    (hstep : CUstep s a = some t)
    (hpaced : ∀ n, a = CUAction.beginPass n → s.tiles_completed = false)
    (hinv : CUInv s) : CUInv t := by
  obtain ⟨hflag, hcnt⟩ := hinv
  cases a with
  | startCU =>
    simp only [CUstep] at hstep
    by_cases hact : s.continuous_updates_active
    · rw [if_pos hact] at hstep
      injection hstep with h
      subst h
      exact ⟨hflag, hcnt⟩
    · rw [if_neg hact] at hstep
      injection hstep with h
      subst h
      constructor
      · intro _
        exact le_refl 0
      · exact Int.ofNat_nonneg _
  | stopCU =>
    simp only [CUstep] at hstep
    injection hstep with h
    subst h
    constructor
    · intro hc
      exact absurd hc.2 (by simp)
    · exact hcnt
  | beginPass n =>
    simp only [CUstep] at hstep
    by_cases hz : s.inflight = 0
    · rw [if_pos hz] at hstep
      injection hstep with h
      subst h
      constructor
      · intro hc
        exact absurd hc.1 (by simp [hpaced n rfl])
      · exact le_refl _
    · rw [if_neg hz] at hstep
      exact absurd hstep (by simp)
  | tileFinish =>
    simp only [CUstep] at hstep
    by_cases hz : 0 < s.inflight
    · rw [if_pos hz] at hstep
      injection hstep with h
      subst h
      constructor
      · intro hc
        show s.active_tile_count - 1 ≤ 0
        by_cases hzero : s.active_tile_count - 1 = 0
        · omega
        · have h1 : (if s.active_tile_count - 1 = 0 then true
              else s.tiles_completed) = true := hc.1
          rw [if_neg hzero] at h1
          have h2 : s.continuous_updates_active = true := hc.2
          have := hflag ⟨h1, h2⟩
          omega
      · show s.active_tile_count - 1 ≤ ((s.inflight - 1 : Nat) : Int)
        omega
    · rw [if_neg hz] at hstep
      exact absurd hstep (by simp)
  | singleThreadDone =>
    simp only [CUstep] at hstep
    by_cases hz : s.inflight = 0
    · rw [if_pos hz] at hstep
      injection hstep with h
      subst h
      constructor
      · intro _
        show s.active_tile_count ≤ 0
        omega
      · exact hcnt
    · rw [if_neg hz] at hstep
      exact absurd hstep (by simp)
  | pubRecompute =>
    simp only [CUstep] at hstep
    by_cases hg : s.continuous_updates_active && s.tiles_completed
    · rw [if_pos hg] at hstep
      injection hstep with h
      subst h
      constructor
      · intro hc
        exact absurd hc.1 (by simp)
      · exact hcnt
    · rw [if_neg hg] at hstep
      exact absurd hstep (by simp)

theorem CUrun_inv :
    ∀ (tr : List CUAction) (s0 s : CUState), CUInv s0 →
      pacedFrom s0 tr = true → CUrun s0 tr = some s → CUInv s := by
  intro tr
  induction tr with
  | nil =>
    intro s0 s hinv _ hrun
    simp only [CUrun, Option.some.injEq] at hrun
    subst hrun
    exact hinv
  | cons a rest ih =>
    intro s0 s hinv hpaced hrun
    simp only [CUrun] at hrun
    cases hstep : CUstep s0 a with
    | none => rw [hstep] at hrun; exact absurd hrun (by simp)
    | some t =>
      rw [hstep] at hrun
      simp only [pacedFrom, Bool.and_eq_true] at hpaced
      have hpace1 : ∀ n, a = CUAction.beginPass n → s0.tiles_completed = false := by
        intro n ha
        subst ha
        have := hpaced.1
        simpa using this
      have hpace2 : pacedFrom t rest = true := by
        have := hpaced.2
        rw [hstep] at this
        exact this
      exact ih t s (CUstep_inv s0 a t hstep hpace1 hinv) hpace2 hrun

/-- C1 fails as stated: starting continuous updates, completing a full
2-tile pass (the last tile raises `tiles_completed`), and then beginning the
next pass before the publisher has run leaves the completion flag raised
while `active_tile_count = 2 > 0`; the publisher's recomputation step is
enabled there and taking it recomputes the snapshot mid-pass. -/
theorem snapshot_recompute_midpass_possible :
    CUrun CUState.init [CUAction.startCU, CUAction.beginPass 2, CUAction.tileFinish,
      CUAction.tileFinish, CUAction.beginPass 2] =
      some ⟨true, 2, true, 2⟩ ∧
    0 < (2 : Int) ∧
    (CUstep ⟨true, 2, true, 2⟩ CUAction.pubRecompute).isSome = true ∧
    CUrun CUState.init [CUAction.startCU, CUAction.beginPass 2, CUAction.tileFinish,
      CUAction.tileFinish, CUAction.beginPass 2, CUAction.pubRecompute] =
      some ⟨false, 2, true, 2⟩ := by
  decide

/-- C1 amended: the publisher recomputes only when `tiles_completed` is
true, but the flag is raised not only by the tile task whose decrement
reaches zero — `start_continuous_updates`, `stop_continuous_updates` and the
single-threaded sampling path raise it too — and the publisher is kept from
recomputing while `active_tile_count > 0` only in paced executions, where
each pass begins after the publisher has consumed (reset) the completion
flag of the previous pass. -/
theorem snapshot_recompute_gating (tr : List CUAction) (s : CUState)
    (hpaced : pacedFrom CUState.init tr = true)
    (hrun : CUrun CUState.init tr = some s) :
    ((CUstep s CUAction.pubRecompute).isSome →
      s.tiles_completed = true ∧ s.active_tile_count ≤ 0) ∧
    (∀ (u t : CUState) (a : CUAction), CUstep u a = some t →
      t.tiles_completed = true → u.tiles_completed = false →
      a = CUAction.startCU ∨ a = CUAction.stopCU ∨
      a = CUAction.singleThreadDone ∨
      (a = CUAction.tileFinish ∧ u.active_tile_count = 1)) := by
  have hinv : CUInv s := by
    refine CUrun_inv tr CUState.init s ⟨?_, ?_⟩ hpaced hrun <;>
      simp [CUState.init]
  constructor
  · intro hen
    simp only [CUstep] at hen
    by_cases hg : s.continuous_updates_active && s.tiles_completed
    · have hand := Bool.and_eq_true .. |>.mp hg
      exact ⟨hand.2, hinv.1 ⟨hand.2, hand.1⟩⟩
    · rw [if_neg hg] at hen
      exact absurd hen (by simp)
  · intro u t a hstep ht hu
    cases a with
    | startCU => exact Or.inl rfl
    | stopCU => exact Or.inr (Or.inl rfl)
    | singleThreadDone => exact Or.inr (Or.inr (Or.inl rfl))
    | beginPass n =>
      exfalso
      simp only [CUstep] at hstep
      by_cases hz : u.inflight = 0
      · rw [if_pos hz] at hstep
        injection hstep with h
        rw [← h] at ht
        have ht2 : u.tiles_completed = true := ht
        rw [hu] at ht2
        exact Bool.false_ne_true ht2
      · rw [if_neg hz] at hstep
        exact absurd hstep (by simp)
    | tileFinish =>
      refine Or.inr (Or.inr (Or.inr ⟨rfl, ?_⟩))
      simp only [CUstep] at hstep
      by_cases hz : 0 < u.inflight
      · rw [if_pos hz] at hstep
        injection hstep with h
        rw [← h] at ht
        have ht2 : (if u.active_tile_count - 1 = 0 then true
            else u.tiles_completed) = true := ht
        by_cases hzero : u.active_tile_count - 1 = 0
        · omega
        · rw [if_neg hzero, hu] at ht2
          exact absurd ht2 Bool.false_ne_true
      · rw [if_neg hz] at hstep
        exact absurd hstep (by simp)
    | pubRecompute =>
      exfalso
      simp only [CUstep] at hstep
      by_cases hg : u.continuous_updates_active && u.tiles_completed
      · have hand := Bool.and_eq_true .. |>.mp hg
        rw [hu] at hand
        exact Bool.false_ne_true hand.2
      · rw [if_neg hg] at hstep
        exact absurd hstep (by simp)

/-- Witness for C1's amended statement: a paced run — start, publisher
cycle, a 2-tile pass — ends with the flag raised by the last tile and no
tile outstanding, and the publisher's next cycle is enabled there. -/
theorem snapshot_recompute_gating_witness :
    (((CUstep (⟨true, 0, true, 0⟩ : CUState) CUAction.pubRecompute).isSome →
      (⟨true, 0, true, 0⟩ : CUState).tiles_completed = true ∧
      (⟨true, 0, true, 0⟩ : CUState).active_tile_count ≤ 0) ∧
    (∀ (u t : CUState) (a : CUAction), CUstep u a = some t →
      t.tiles_completed = true → u.tiles_completed = false →
      a = CUAction.startCU ∨ a = CUAction.stopCU ∨
      a = CUAction.singleThreadDone ∨
      (a = CUAction.tileFinish ∧ u.active_tile_count = 1))) :=
  snapshot_recompute_gating
    [CUAction.startCU, CUAction.pubRecompute, CUAction.beginPass 2,
     CUAction.tileFinish, CUAction.tileFinish]
    ⟨true, 0, true, 0⟩ (by decide) (by decide)

end RTEngine
